import Mathlib

set_option maxHeartbeats 1000000

namespace OAuthAuthz

/-! Shallow embedding of the permission-resolution engine of the
oauth-authentication-service repository.

Strings are modelled by Lean `String` (whose kernel representation is a
list of characters); splitting on `/` is modelled by `splitSlash` on the
underlying character list, matching the JavaScript semantics of
`str.split('/')` (the empty string splits to one empty segment, separators
at the ends produce empty segments). -/

inductive PermissionAction where
  | read
  | write
  | delete
  deriving DecidableEq

def PermissionAction.toStr : PermissionAction → String
  | .read => "read"
  | .write => "write"
  | .delete => "delete"

inductive PermissionEffect where
  | allow
  | deny
  deriving DecidableEq

/-- JavaScript numbers extended with the `-Infinity` sentinel used by
`calculateSpecificityScore` for the global pattern. -/
inductive ExtInt where
  | negInf
  | fin (n : Int)
  deriving DecidableEq

/-- Strict order on `ExtInt`: `-Infinity` is below every finite value. -/
def ExtInt.blt : ExtInt → ExtInt → Bool
  | .negInf, .negInf => false
  | .negInf, .fin _ => true
  | .fin _, .negInf => false
  | .fin a, .fin b => decide (a < b)

/-- The specificity score triple `[exactness, specificity, -wildcards]`
from `src/utils/pathMapper.ts`. -/
structure Score where
  exactness : Int
  specificity : Int
  negWildcards : ExtInt
  deriving DecidableEq

/-- Lexicographic strict comparison of score triples, left to right,
higher wins at each position. -/
def Score.blt (s t : Score) : Bool :=
  if s.exactness < t.exactness then true
  else if t.exactness < s.exactness then false
  else if s.specificity < t.specificity then true
  else if t.specificity < s.specificity then false
  else ExtInt.blt s.negWildcards t.negWildcards

/-- JavaScript `str.split('/')` on the underlying character list. -/
def splitSlash : List Char → List (List Char)
  | [] => [[]]
  | c :: cs =>
    let r := splitSlash cs
    if c = '/' then [] :: r
    else
      match r with
      | [] => [[c]]
      | s :: ss => (c :: s) :: ss

/-- JavaScript `arr.join('/')` on segment lists. -/
def joinSlash : List (List Char) → List Char
  | [] => []
  | [s] => s
  | s :: ss => s ++ '/' :: joinSlash ss

/-- Count of `'*'` characters in a string, as `/\*/g` match count. -/
def starCount (l : List Char) : Nat := (l.filter (fun c => c = '*')).length

/-- JavaScript `str.toUpperCase()` (ASCII case mapping), character-wise. -/
def toUpperStr (s : String) : String := (s.toList.map Char.toUpper).asString

/-- Substring check: `sub` occurs contiguously in `l`. -/
def containsSub (sub : List Char) : List Char → Bool
  | [] => sub.isEmpty
  | c :: cs => sub.isPrefixOf (c :: cs) || containsSub sub cs

/-- `mapHttpMethodToAction` from `src/utils/pathMapper.ts`; the thrown
`Error` is modelled by the `Except.error` branch carrying the message. -/
def mapHttpMethodToAction (method : String) : Except String PermissionAction :=
  if toUpperStr method = "GET" then .ok .read
  else if toUpperStr method = "POST" then .ok .write
  else if toUpperStr method = "PUT" then .ok .write
  else if toUpperStr method = "PATCH" then .ok .write
  else if toUpperStr method = "DELETE" then .ok .delete
  else .error ("Unsupported HTTP method: " ++ method)

/-- `mapPathToResource` from `src/utils/pathMapper.ts`:
`path.replace(/^\x7b\x7d/, ...)`-style leading-slash stripping is the
`dropWhile`, `split('?')[0]` is the `takeWhile`, and the trailing-slash
strip is the reversed `dropWhile`. -/
def mapPathToResource (path : String) : String :=
  let afterLead := (path.toList.dropWhile (fun c => c == '/')).takeWhile (fun c => c != '?')
  let afterTrail := (afterLead.reverse.dropWhile (fun c => c == '/')).reverse
  if afterTrail = [] then "*" else afterTrail.asString

/-- `calculateSpecificityScore` from `src/utils/pathMapper.ts`. -/
def calculateSpecificityScore (resource matchedResource : String) : Score :=
  if matchedResource = "*" then ⟨0, 0, .negInf⟩
  else
    let segments := splitSlash matchedResource.toList
    let wildcardCount := starCount matchedResource.toList
    ⟨if resource = matchedResource then 1 else 0,
     (segments.length : Int) - (wildcardCount : Int),
     .fin (-(wildcardCount : Int))⟩

/-- `Set.add` / push-if-new used to model the insertion-ordered
JavaScript `Set` of patterns. -/
def addPat (l : List String) (p : String) : List String :=
  if p ∈ l then l else l ++ [p]

/-- First-occurrence deduplication, the JavaScript `[...new Set(arr)]`. -/
def dedupFirst (l : List String) : List String := l.foldl addPat []

/-- Ascending index list `[s, s+1, ..., s+n-1]`, used for the `for` loops. -/
def idxList (s n : Nat) : List Nat :=
  match n with
  | 0 => []
  | m + 1 => s :: idxList (s + 1) m

/-- Replace the segment at position `i` by the wildcard segment, the
JavaScript `segments.map((seg, idx) => idx === i ? '*' : seg)`. -/
def setStar : Nat → List (List Char) → List (List Char)
  | _, [] => []
  | 0, _ :: ss => ['*'] :: ss
  | i + 1, s :: ss => s :: setStar i ss

/-- The parent-wildcard pattern `parentPath + "/*"`. -/
def parentPattern (segments : List (List Char)) (i : Nat) : String :=
  (joinSlash (segments.take i)).asString ++ "/*"

/-- The collapsed-middle pattern `firstSegment + "/*/" + lastSegment`. -/
def middlePattern (segments : List (List Char)) : String :=
  (segments.headD []).asString ++ "/*/" ++ (segments.getLastD []).asString

/-- Single wildcard at position `i`, keeping the segment count. -/
def wildcardAt (segments : List (List Char)) (i : Nat) : String :=
  (joinSlash (setStar i segments)).asString

/-- The two-wildcard pattern of `src/utils/pathMapper.ts`:
`segments.slice(0, i).concat('*', segments.slice(i + 1, -1), '*')`. -/
def twoWildA (segments : List (List Char)) (i : Nat) : String :=
  (joinSlash (segments.take i ++ [['*']] ++ (segments.drop (i + 1)).dropLast ++ [['*']])).asString

/-- Two wildcards at positions `i` and `j`, keeping the segment count,
from `src/unnamed/part_000`. -/
def twoWildB (segments : List (List Char)) (i j : Nat) : String :=
  (joinSlash (setStar j (setStar i segments))).asString

/-- `generateResourcePatterns` from `src/utils/pathMapper.ts` (the
insertion-ordered `Set` is modelled by `addPat`). -/
def generateResourcePatterns (resource : String) : List String :=
  let segments := splitSlash resource.toList
  let n := segments.length
  let p0 := addPat [] resource
  let p1 := ((idxList 1 (n - 1)).reverse).foldl (fun acc i => addPat acc (parentPattern segments i)) p0
  let p2 :=
    if 3 ≤ n then
      let q := addPat p1 (middlePattern segments)
      if 3 < n then
        (idxList 1 (n - 2)).foldl (fun acc i => addPat acc (wildcardAt segments i)) q
      else q
    else p1
  let p3 :=
    if 4 ≤ n then
      (idxList 1 (n - 3)).foldl (fun acc i => addPat acc (twoWildA segments i)) p2
    else p2
  addPat p3 "*"

/-- `generateResourcePatterns` from `src/unnamed/part_000` (array pushes
followed by `[...new Set(patterns)]`). -/
def generateResourcePatternsB (resource : String) : List String :=
  let segments := splitSlash resource.toList
  let n := segments.length
  let pats :=
    [resource]
      ++ ((idxList 1 (n - 1)).reverse).map (parentPattern segments)
      ++ (if 3 ≤ n then (idxList 1 (n - 2)).map (wildcardAt segments) else [])
      ++ (if 4 ≤ n then
            ((idxList 1 (n - 3)).map (fun i =>
              (idxList (i + 2) (n - 2 - i)).map (fun j => twoWildB segments i j))).flatten
          else [])
      ++ ["*"]
  dedupFirst pats

/-- A permission record returned by the repository, already annotated
with its specificity score. -/
structure MatchedPermission where
  action : PermissionAction
  resource : String
  effect : PermissionEffect
  score : Score
  deriving DecidableEq

structure PermissionCheckResult where
  allowed : Bool
  matchedPermissions : List MatchedPermission
  reason : String
  deriving DecidableEq

/-- `generateAllowReason` from `src/services/permissionService.ts`. -/
def generateAllowReason (p : MatchedPermission) (action : PermissionAction) (resource : String) : String :=
  if p.resource = resource then "User has " ++ action.toStr ++ " permission for " ++ resource
  else if p.resource = "*" then "User has global " ++ action.toStr ++ " permission"
  else if p.resource.toList.contains '*' then
    "User has " ++ action.toStr ++ " permission matching pattern " ++ p.resource
  else "User has " ++ action.toStr ++ " permission for " ++ p.resource

/-- `generateDenyReason` from `src/services/permissionService.ts`. -/
def generateDenyReason (p : MatchedPermission) (action : PermissionAction) (resource : String) : String :=
  if p.resource = resource then "User is explicitly denied " ++ action.toStr ++ " permission for " ++ resource
  else if p.resource = "*" then "User is globally denied " ++ action.toStr ++ " permission"
  else if p.resource.toList.contains '*' then
    "User is denied " ++ action.toStr ++ " permission by pattern " ++ p.resource
  else "User is denied " ++ action.toStr ++ " permission for " ++ p.resource

/-- `resolvePermissions` from `src/services/permissionService.ts`. -/
def resolvePermissions (permissions : List MatchedPermission) (action : PermissionAction)
    (resource : String) : PermissionCheckResult :=
  match permissions with
  | [] => ⟨false, [], "No permissions found for " ++ action.toStr ++ " on " ++ resource⟩
  | top :: _ =>
    let sameScorePermissions := permissions.filter (fun p => decide (p.score = top.score))
    match sameScorePermissions.find? (fun p => decide (p.effect = PermissionEffect.deny)) with
    | some denyPermission => ⟨false, [denyPermission], generateDenyReason denyPermission action resource⟩
    | none =>
      let allowed := top.effect = PermissionEffect.allow
      ⟨allowed, [top],
       if allowed then generateAllowReason top action resource
       else generateDenyReason top action resource⟩

/-- `checkPermission` from `src/services/permissionService.ts`; the
repository call's outcome (result list, or thrown error caught by the
`try`/`catch`) is passed in as an `Except`. -/
def checkPermission (repoResult : Except String (List MatchedPermission))
    (action : PermissionAction) (resource : String) : PermissionCheckResult :=
  match repoResult with
  | .ok matched =>
    if matched.length = 0 then
      ⟨false, [], "No permissions found for " ++ action.toStr ++ " on " ++ resource⟩
    else resolvePermissions matched action resource
  | .error _ => ⟨false, [], "Permission check failed due to system error"⟩

/-- Outcome of `tokenService.validateToken` plus the nickname lookup in
`authorize`; `invalid` covers `!tokenResult.valid || !tokenResult.payload`,
and `resolved none` covers a falsy `userInfo.nickname`. -/
inductive TokenOutcome where
  | invalid (error : Option String)
  | resolved (nickname : Option String)

structure AuthorizeResponse where
  decision : String
  user_id : String
  reason : String
  matched_permissions : List (PermissionAction × String × PermissionEffect)
  deriving DecidableEq

/-- `authorize` from `src/services/authorizationService.ts`. The repository
call inside `checkPermission` is abstracted as `repoFn`; a throw from
`mapHttpMethodToAction` is caught by the outer `try`/`catch`. -/
def authorize (tok : TokenOutcome)
    (repoFn : String → PermissionAction → String → Except String (List MatchedPermission))
    (method path : String) : AuthorizeResponse :=
  match tok with
  | .invalid err => ⟨"DENY", "unknown", err.getD "Invalid token", []⟩
  | .resolved none => ⟨"DENY", "unknown", "User not found", []⟩
  | .resolved (some userId) =>
    match mapHttpMethodToAction method with
    | .error _ => ⟨"DENY", "unknown", "Authorization check failed due to system error", []⟩
    | .ok action =>
      let resource := mapPathToResource path
      let pr := checkPermission (repoFn userId action resource) action resource
      ⟨if pr.allowed then "ALLOW" else "DENY", userId, pr.reason,
       pr.matchedPermissions.map (fun p => (p.action, p.resource, p.effect))⟩

/-- The ordering contract of spec section 4.4 as a decidable predicate on
candidate lists: every deny-effect record precedes every allow-effect
record, and within an effect group scores are descending (adjacent pairs
are either a deny followed by an allow, or share an effect with a
non-increasing score). -/
def specOrdered : List MatchedPermission → Bool
  | [] => true
  | [_] => true
  | a :: b :: rest =>
    ((a.effect = PermissionEffect.deny && b.effect = PermissionEffect.allow) ||
      (a.effect = b.effect && !(Score.blt a.score b.score))) &&
      specOrdered (b :: rest)

/-! ## Claim theorems -/

/-- The deny record `\x7bresource: "wallets/*", effect: deny, action: write\x7d`
scored against the request resource `wallets/wallet-123`. -/
def denyWalletsStar : MatchedPermission :=
  ⟨.write, "wallets/*", .deny, calculateSpecificityScore "wallets/wallet-123" "wallets/*"⟩

/-- The allow record `\x7bresource: "wallets/wallet-123", effect: allow, action: write\x7d`
scored against the request resource `wallets/wallet-123`. -/
def allowWallet123 : MatchedPermission :=
  ⟨.write, "wallets/wallet-123", .allow, calculateSpecificityScore "wallets/wallet-123" "wallets/wallet-123"⟩

/-- Claim C2: with exactly the two write-action candidates
`wallets/*`-deny and `wallets/wallet-123`-allow for the request
(write, `wallets/wallet-123`), the spec-prescribed order is deny first
(the allow-first order violates the ordering contract), and resolution on
the prescribed order returns DENY with the `wallets/*` deny record as the
single matched permission: a less specific deny defeats the more specific
allow. -/
theorem resolve_deny_first_defeats_specific_allow :
    specOrdered [denyWalletsStar, allowWallet123] = true
  ∧ specOrdered [allowWallet123, denyWalletsStar] = false
  ∧ (resolvePermissions [denyWalletsStar, allowWallet123] .write "wallets/wallet-123").allowed = false
  ∧ (resolvePermissions [denyWalletsStar, allowWallet123] .write "wallets/wallet-123").matchedPermissions
      = [denyWalletsStar] := by
  decide

/-- Claim C4, counterexample: on an empty candidate list the code returns
the reason `No permissions found for read on wallets/w1` with a capital
`N`, so the lowercase text `no permissions found` required by the claim
does not occur in it. -/
theorem empty_candidates_reason_case_counterexample :
    (checkPermission (.ok []) .read "wallets/w1").reason
        = "No permissions found for read on wallets/w1"
  ∧ containsSub "no permissions found".toList
        (checkPermission (.ok []) .read "wallets/w1").reason.toList = false := by
  decide

/-- Claim C4, amended: for every action and resource, if the candidate
list is empty, `checkPermission` returns `allowed = false`, no matched
permissions, and the reason `No permissions found for \x7baction\x7d on
\x7bresource\x7d` (capitalised `No`, so it contains `No permissions found`
rather than the lowercase text). -/
theorem empty_candidates_default_deny (a : PermissionAction) (r : String) :
    checkPermission (.ok []) a r
      = ⟨false, [], "No permissions found for " ++ a.toStr ++ " on " ++ r⟩ := by
  rfl

/-- Claim C7: `mapHttpMethodToAction` is case-insensitive and total on the
supported set: upper-casing to `GET` yields read, to `POST`/`PUT`/`PATCH`
yields write, to `DELETE` yields delete, and it throws an error whose
message names the offending method exactly when the upper-cased method is
outside the supported set. -/
theorem mapHttpMethodToAction_contract (m : String) :
    (toUpperStr m = "GET" → mapHttpMethodToAction m = .ok .read)
  ∧ ((toUpperStr m = "POST" ∨ toUpperStr m = "PUT" ∨ toUpperStr m = "PATCH") →
      mapHttpMethodToAction m = .ok .write)
  ∧ (toUpperStr m = "DELETE" → mapHttpMethodToAction m = .ok .delete)
  ∧ (mapHttpMethodToAction m = .error ("Unsupported HTTP method: " ++ m) ↔
      ¬(toUpperStr m = "GET" ∨ toUpperStr m = "POST" ∨ toUpperStr m = "PUT" ∨
        toUpperStr m = "PATCH" ∨ toUpperStr m = "DELETE")) := by
  unfold mapHttpMethodToAction
  split_ifs with h1 h2 h3 h4 h5 <;> simp_all

/-- Witness for C7 at the concrete inputs `dElEtE` (mixed case, supported)
and `BREW` (unsupported). -/
theorem mapHttpMethodToAction_contract_witness :
    mapHttpMethodToAction "dElEtE" = .ok .delete
  ∧ mapHttpMethodToAction "BREW" = .error ("Unsupported HTTP method: " ++ "BREW") :=
  ⟨(mapHttpMethodToAction_contract "dElEtE").2.2.1 (by decide),
   (mapHttpMethodToAction_contract "BREW").2.2.2.mpr (by decide)⟩

/-- Claim C1: when the repository call inside `checkPermission` throws,
`checkPermission` returns a DENY result with no matched permissions and
the fixed generic reason (which contains `system error` and, being a
constant independent of the thrown message `e`, includes no text from it),
and the `authorize` response built from that result keeps the resolved
identity `u` as `user_id`. -/
theorem checkPermission_store_error_fail_secure
    (u method path e : String) (a : PermissionAction)
    (repoFn : String → PermissionAction → String → Except String (List MatchedPermission))
    (hm : mapHttpMethodToAction method = .ok a)
    (he : repoFn u a (mapPathToResource path) = .error e) :
    checkPermission (repoFn u a (mapPathToResource path)) a (mapPathToResource path)
        = ⟨false, [], "Permission check failed due to system error"⟩
  ∧ containsSub "system error".toList "Permission check failed due to system error".toList = true
  ∧ (authorize (.resolved (some u)) repoFn method path).user_id = u
  ∧ (authorize (.resolved (some u)) repoFn method path).reason
       = "Permission check failed due to system error" := by
  refine ⟨?_, by decide, ?_, ?_⟩ <;> simp [checkPermission, authorize, hm, he]

/-- Witness for C1 at the concrete request (user `u1`, `GET /wallets`)
with a repository that throws `db down`. -/
theorem checkPermission_store_error_fail_secure_witness :
    checkPermission ((fun _ _ _ => .error "db down" :
          String → PermissionAction → String → Except String (List MatchedPermission))
        "u1" .read (mapPathToResource "/wallets")) .read (mapPathToResource "/wallets")
        = ⟨false, [], "Permission check failed due to system error"⟩
  ∧ containsSub "system error".toList "Permission check failed due to system error".toList = true
  ∧ (authorize (.resolved (some "u1")) (fun _ _ _ => .error "db down") "GET" "/wallets").user_id = "u1"
  ∧ (authorize (.resolved (some "u1")) (fun _ _ _ => .error "db down") "GET" "/wallets").reason
       = "Permission check failed due to system error" :=
  checkPermission_store_error_fail_secure "u1" "GET" "/wallets" "db down" .read
    (fun _ _ _ => .error "db down") rfl rfl

/-- Claim C5: for every resource `R`, every generated pattern `P` other
than `R` itself scores strictly below the exact match `R` under the
lexicographic comparison of score triples. -/
theorem exact_match_dominates (R P : String)
    (hmem : P ∈ generateResourcePatterns R) (hne : P ≠ R) :
    Score.blt (calculateSpecificityScore R P) (calculateSpecificityScore R R) = true := by
  by_cases hR : R = "*"
  · subst hR
    have hP : P = "*" := by
      have h := hmem
      rw [show generateResourcePatterns "*" = ["*"] from by decide] at h
      simpa using h
    exact absurd hP hne
  · have h1 : (calculateSpecificityScore R P).exactness = 0 := by
      by_cases hP : P = "*"
      · simp [calculateSpecificityScore, hP]
      · simp [calculateSpecificityScore, hP, Ne.symm hne]
    have h2 : (calculateSpecificityScore R R).exactness = 1 := by
      simp [calculateSpecificityScore, hR]
    simp [Score.blt, h1, h2]

/-- Witness for C5 at the concrete resource `a/b` and generated pattern
`a/*`. -/
theorem exact_match_dominates_witness :
    "a/*" ∈ generateResourcePatterns "a/b"
  ∧ "a/*" ≠ "a/b"
  ∧ Score.blt (calculateSpecificityScore "a/b" "a/*") (calculateSpecificityScore "a/b" "a/b") = true :=
  ⟨by decide, by decide, exact_match_dominates "a/b" "a/*" (by decide) (by decide)⟩

/-- Claim C3: for every non-empty spec-ordered candidate list, if the
group of records tied with the top record's score contains a deny record,
`resolvePermissions` returns DENY with the first such deny record as the
single matched permission. -/
theorem tie_group_deny_precedence (top : MatchedPermission) (rest : List MatchedPermission)
    (a : PermissionAction) (r : String) (d : MatchedPermission)
    (_hord : specOrdered (top :: rest) = true)
    (hfind : ((top :: rest).filter (fun p => decide (p.score = top.score))).find?
        (fun p => decide (p.effect = PermissionEffect.deny)) = some d) :
    resolvePermissions (top :: rest) a r = ⟨false, [d], generateDenyReason d a r⟩ := by
  simp only [resolvePermissions, hfind]

/-- The deny half of the identical-pattern tie from spec scenario 5. -/
def tieDeny : MatchedPermission :=
  ⟨.read, "wallets/*", .deny, calculateSpecificityScore "wallets/w5" "wallets/*"⟩

/-- The allow half of the identical-pattern tie from spec scenario 5. -/
def tieAllow : MatchedPermission :=
  ⟨.read, "wallets/*", .allow, calculateSpecificityScore "wallets/w5" "wallets/*"⟩

/-- Witness for C3: two records with the identical pattern `wallets/*`
(hence equal scores), one deny and one allow, resolve to DENY with the
deny record matched. -/
theorem tie_group_deny_precedence_witness :
    specOrdered [tieDeny, tieAllow] = true
  ∧ (([tieDeny, tieAllow].filter (fun p => decide (p.score = tieDeny.score))).find?
        (fun p => decide (p.effect = PermissionEffect.deny)) = some tieDeny)
  ∧ resolvePermissions [tieDeny, tieAllow] .read "wallets/w5"
      = ⟨false, [tieDeny], generateDenyReason tieDeny .read "wallets/w5"⟩ :=
  ⟨by decide, by decide,
   tie_group_deny_precedence tieDeny [tieAllow] .read "wallets/w5" tieDeny (by decide) (by decide)⟩

/-! ### C8: `mapPathToResource` against the spec's pipeline -/

/-- Modelled from the spec words for C8: strip leading slashes. -/
def stripLeadingSlashes : List Char → List Char
  | [] => []
  | c :: cs => if c = '/' then stripLeadingSlashes cs else c :: cs

/-- Modelled from the spec words for C8: truncate at the first `?`. -/
def truncateAtQuery : List Char → List Char
  | [] => []
  | c :: cs => if c = '?' then [] else c :: truncateAtQuery cs

/-- Modelled from the spec words for C8: strip trailing slashes. -/
def stripTrailingSlashes : List Char → List Char
  | [] => []
  | c :: cs =>
    match stripTrailingSlashes cs with
    | [] => if c = '/' then [] else [c]
    | r => c :: r

/-- The C8 pipeline assembled from the spec's words: strip leading
slashes, truncate at the first `?`, strip trailing slashes, map the empty
result to the global identifier. -/
def mapPathToResourceSpec (path : String) : String :=
  let r := stripTrailingSlashes (truncateAtQuery (stripLeadingSlashes path.toList))
  if r = [] then "*" else r.asString

theorem stripLeadingSlashes_eq (l : List Char) :
    stripLeadingSlashes l = l.dropWhile (fun c => c == '/') := by
  induction l with
  | nil => rfl
  | cons c cs ih =>
    by_cases h : c = '/'
    · subst h
      simp [stripLeadingSlashes, List.dropWhile, ih]
    · have hb : (c == '/') = false := beq_eq_false_iff_ne.mpr h
      simp [stripLeadingSlashes, List.dropWhile, h, hb]

theorem truncateAtQuery_eq (l : List Char) :
    truncateAtQuery l = l.takeWhile (fun c => c != '?') := by
  induction l with
  | nil => rfl
  | cons c cs ih =>
    by_cases h : c = '?'
    · subst h
      simp [truncateAtQuery, List.takeWhile]
    · have hb : (c != '?') = true := bne_iff_ne.mpr h
      simp [truncateAtQuery, List.takeWhile, h, hb, ih]

theorem stripTrailingSlashes_eq (l : List Char) :
    stripTrailingSlashes l = (l.reverse.dropWhile (fun c => c == '/')).reverse := by
  induction l with
  | nil => rfl
  | cons c cs ih =>
    rw [List.reverse_cons, List.dropWhile_append]
    cases hdw : cs.reverse.dropWhile (fun c => c == '/') with
    | nil =>
      have hnil : stripTrailingSlashes cs = [] := by rw [ih, hdw, List.reverse_nil]
      simp only [stripTrailingSlashes, hnil, List.isEmpty_nil, if_true]
      by_cases h : c = '/'
      · subst h
        simp [List.dropWhile]
      · have hb : (c == '/') = false := beq_eq_false_iff_ne.mpr h
        simp [List.dropWhile, h, hb]
    | cons d ds =>
      have hcons : stripTrailingSlashes cs = (d :: ds).reverse := by rw [ih, hdw]
      obtain ⟨e, es, hes⟩ : ∃ e es, (d :: ds).reverse = e :: es := by
        cases h' : (d :: ds).reverse with
        | nil => exact absurd (List.reverse_eq_nil_iff.mp h') (by simp)
        | cons e es => exact ⟨e, es, rfl⟩
      simp only [stripTrailingSlashes, hcons, hes, List.isEmpty_cons, if_false,
        List.reverse_append, List.reverse_cons, List.reverse_nil, List.nil_append,
        List.singleton_append]
      simp [← hes]

/-- Claim C8: for every path string, `mapPathToResource` equals the
spec's pipeline (strip leading slashes, truncate at the first `?`, strip
trailing slashes, map the empty result to `*`, otherwise return the
stripped string verbatim with no other normalisation). -/
theorem mapPathToResource_spec (p : String) :
    mapPathToResource p = mapPathToResourceSpec p := by
  simp only [mapPathToResource, mapPathToResourceSpec,
    stripLeadingSlashes_eq, truncateAtQuery_eq, stripTrailingSlashes_eq]

/-! ### C9: monotonicity of the specificity component -/

/-- A pattern in the claim's sense: every slash-delimited segment is
either the wildcard token `*` or literal text not containing `*`. -/
def wellFormedPattern (p : String) : Bool :=
  (splitSlash p.toList).all (fun seg => seg == ['*'] || !(seg.contains '*'))

/-- Number of literal (non-wildcard) segments of a pattern. -/
def litSegCount (p : String) : Nat :=
  ((splitSlash p.toList).filter (fun seg => !(seg == ['*']))).length

/-- Number of wildcard segments of a pattern. -/
def wildSegCount (p : String) : Nat :=
  ((splitSlash p.toList).filter (fun seg => seg == ['*'])).length

theorem splitSlash_ne_nil (l : List Char) : splitSlash l ≠ [] := by
  cases l with
  | nil => simp [splitSlash]
  | cons c cs =>
    simp only [splitSlash]
    split
    · simp
    · split <;> simp

theorem starCount_splitSlash (l : List Char) :
    starCount l = ((splitSlash l).map starCount).sum := by
  induction l with
  | nil => rfl
  | cons c cs ih =>
    obtain ⟨s, ss, hss⟩ : ∃ s ss, splitSlash cs = s :: ss := by
      cases h : splitSlash cs with
      | nil => exact absurd h (splitSlash_ne_nil cs)
      | cons s ss => exact ⟨s, ss, rfl⟩
    by_cases h : c = '/'
    · subst h
      have h1 : starCount ('/' :: cs) = starCount cs := by
        simp [starCount, List.filter_cons]
      have h2 : splitSlash ('/' :: cs) = [] :: splitSlash cs := by
        simp [splitSlash]
      rw [h1, h2, ih]
      simp [starCount]
    · have h2 : splitSlash (c :: cs) = (c :: s) :: ss := by
        simp [splitSlash, h, hss]
      have h3 : starCount (c :: s) = (if c = '*' then 1 else 0) + starCount s := by
        by_cases hc : c = '*' <;> (simp [starCount, List.filter_cons, hc]; try omega)
      have h4 : starCount (c :: cs) = (if c = '*' then 1 else 0) + starCount cs := by
        by_cases hc : c = '*' <;> (simp [starCount, List.filter_cons, hc]; try omega)
      rw [h4, h2, ih, hss]
      simp only [List.map_cons, List.sum_cons, h3]
      omega

theorem length_filter_add {α : Type} (p : α → Bool) (l : List α) :
    (l.filter p).length + (l.filter (fun x => !(p x))).length = l.length := by
  induction l with
  | nil => rfl
  | cons a l ih =>
    by_cases h : p a = true <;> simp [List.filter_cons, h] <;> omega

theorem sum_starCount_eq_wild (segs : List (List Char))
    (hwf : ∀ seg ∈ segs, seg = ['*'] ∨ '*' ∉ seg) :
    (segs.map starCount).sum = (segs.filter (fun seg => seg == ['*'])).length := by
  induction segs with
  | nil => rfl
  | cons s ss ih =>
    have hs := hwf s (List.mem_cons_self s ss)
    have hrest : ∀ seg ∈ ss, seg = ['*'] ∨ '*' ∉ seg :=
      fun seg hseg => hwf seg (List.mem_cons_of_mem s hseg)
    rcases hs with h | h
    · subst h
      simp [List.filter_cons, starCount, ih hrest]
      omega
    · have hne : s ≠ ['*'] := by
        intro heq
        subst heq
        exact h (by simp)
      have h0 : starCount s = 0 := by
        simp only [starCount, List.length_eq_zero, List.filter_eq_nil_iff]
        intro c hc
        simp only [decide_eq_true_eq]
        intro heq
        subst heq
        exact h hc
      have hb : (s == ['*']) = false := beq_eq_false_iff_ne.mpr hne
      simp [List.filter_cons, hb, h0, ih hrest]

theorem score_specificity_eq_lit (R P : String)
    (hwf : wellFormedPattern P = true) (hP : P ≠ "*") :
    (calculateSpecificityScore R P).specificity = (litSegCount P : Int) := by
  have hwf' : ∀ seg ∈ splitSlash P.toList, seg = ['*'] ∨ '*' ∉ seg := by
    intro seg hseg
    have hall := (List.all_eq_true.mp hwf) seg hseg
    rcases Bool.or_eq_true_iff.mp hall with hb | hb
    · exact Or.inl (by simpa using hb)
    · refine Or.inr ?_
      intro hmem
      have hc : seg.contains '*' = true := by
        simp only [List.contains]
        exact List.elem_iff.mpr hmem
      simp [hc] at hb
      exact hb hmem
  have h1 : starCount P.toList = wildSegCount P := by
    rw [starCount_splitSlash, wildSegCount]
    exact sum_starCount_eq_wild _ hwf'
  have h2 : litSegCount P + wildSegCount P = (splitSlash P.toList).length := by
    have := length_filter_add (fun seg => seg == ['*']) (splitSlash P.toList)
    rw [litSegCount, wildSegCount]
    omega
  simp only [calculateSpecificityScore, hP, if_false, h1]
  rw [← h2]
  push_cast
  ring

/-- Claim C9: for patterns whose segments are each the wildcard token or
literal text, strictly more literal segments (and no more wildcard
segments) gives a strictly greater second score component, including when
the less specific pattern is the special-cased global `*`. -/
theorem specificity_monotone (R P1 P2 : String)
    (h1 : wellFormedPattern P1 = true) (h2 : wellFormedPattern P2 = true)
    (hlit : litSegCount P2 < litSegCount P1)
    (_hwild : wildSegCount P1 ≤ wildSegCount P2) :
    (calculateSpecificityScore R P2).specificity
      < (calculateSpecificityScore R P1).specificity := by
  by_cases hp1 : P1 = "*"
  · subst hp1
    have hz : litSegCount "*" = 0 := by decide
    rw [hz] at hlit
    exact absurd hlit (Nat.not_lt_zero _)
  · have e1 := score_specificity_eq_lit R P1 h1 hp1
    by_cases hp2 : P2 = "*"
    · subst hp2
      have hz : litSegCount "*" = 0 := by decide
      have e2 : (calculateSpecificityScore R "*").specificity = 0 := rfl
      rw [e1, e2]
      rw [hz] at hlit
      exact_mod_cast hlit
    · have e2 := score_specificity_eq_lit R P2 h2 hp2
      rw [e1, e2]
      exact_mod_cast hlit

/-- Witness for C9 at the concrete resource `a/b` with patterns `a/b`
(two literal segments) and `a/*` (one literal, one wildcard). -/
theorem specificity_monotone_witness :
    wellFormedPattern "a/b" = true
  ∧ wellFormedPattern "a/*" = true
  ∧ litSegCount "a/*" < litSegCount "a/b"
  ∧ wildSegCount "a/b" ≤ wildSegCount "a/*"
  ∧ (calculateSpecificityScore "a/b" "a/*").specificity
      < (calculateSpecificityScore "a/b" "a/b").specificity :=
  ⟨by decide, by decide, by decide, by decide,
   specificity_monotone "a/b" "a/b" "a/*" (by decide) (by decide) (by decide) (by decide)⟩

/-! ### C6: the two pattern generators compared -/

theorem mem_addPat {x p : String} {l : List String} :
    x ∈ addPat l p ↔ x ∈ l ∨ x = p := by
  unfold addPat
  split
  · rename_i h
    constructor
    · exact Or.inl
    · rintro (hx | rfl)
      · exact hx
      · exact h
  · simp [List.mem_append]

theorem mem_foldl_addPat_self (x : String) (l : List String) : ∀ init : List String,
    x ∈ l.foldl addPat init ↔ x ∈ init ∨ x ∈ l := by
  induction l with
  | nil => intro init; simp
  | cons a l ih =>
    intro init
    rw [List.foldl_cons, ih, mem_addPat]
    simp [List.mem_cons]
    tauto

theorem mem_dedupFirst {x : String} {l : List String} :
    x ∈ dedupFirst l ↔ x ∈ l := by
  rw [dedupFirst, mem_foldl_addPat_self]
  simp

/-- `asString` turns list append into string append. -/
theorem asString_append (l m : List Char) :
    l.asString ++ m.asString = (l ++ m).asString := rfl

/-- The collapsed-middle pattern of a three-segment resource coincides
with the single-wildcard-at-position-1 pattern. -/
theorem middle_eq_wildcardAt1 (a b c : List Char) :
    middlePattern [a, b, c] = wildcardAt [a, b, c] 1 := by
  show a.asString ++ "/*/" ++ c.asString = (joinSlash [a, ['*'], c]).asString
  rw [show ("/*/" : String) = List.asString ['/', '*', '/'] from rfl,
    asString_append, asString_append]
  show List.asString _ = List.asString (a ++ '/' :: '*' :: '/' :: c)
  congr 1
  simp

/-- Claim C6, counterexample: for the four-segment resource `a/b/c/d` the
`pathMapper.ts` generator produces the collapsed pattern `a/*/d`, which
the `part_000` generator never produces, so the two pattern sets differ. -/
theorem genPatterns_not_equiv_counterexample :
    "a/*/d" ∈ generateResourcePatterns "a/b/c/d"
  ∧ "a/*/d" ∉ generateResourcePatternsB "a/b/c/d" := by
  decide

/-- Claim C6, amended: the two generators return the same set of patterns
for every resource with at most three slash-delimited segments (for four
or more segments they differ, as the counterexample shows). -/
theorem genPatterns_equiv_upto3 (R : String)
    (hn : (splitSlash R.toList).length ≤ 3) (p : String) :
    p ∈ generateResourcePatterns R ↔ p ∈ generateResourcePatternsB R := by
  have hpos : 0 < (splitSlash R.toList).length :=
    List.length_pos.mpr (splitSlash_ne_nil _)
  obtain h1 | h2 | h3 :
      (splitSlash R.toList).length = 1 ∨ (splitSlash R.toList).length = 2 ∨
        (splitSlash R.toList).length = 3 := by omega
  · obtain ⟨a, hsegs⟩ := List.length_eq_one.mp h1
    have hA : generateResourcePatterns R = addPat (addPat [] R) "*" := by
      unfold generateResourcePatterns
      rw [hsegs]
      rfl
    have hB : generateResourcePatternsB R = dedupFirst [R, "*"] := by
      unfold generateResourcePatternsB
      rw [hsegs]
      rfl
    rw [hA, hB, mem_dedupFirst]
    simp [mem_addPat]
  · obtain ⟨a, b, hsegs⟩ := List.length_eq_two.mp h2
    have hA : generateResourcePatterns R =
        addPat (addPat (addPat [] R) (parentPattern [a, b] 1)) "*" := by
      unfold generateResourcePatterns
      rw [hsegs]
      rfl
    have hB : generateResourcePatternsB R = dedupFirst [R, parentPattern [a, b] 1, "*"] := by
      unfold generateResourcePatternsB
      rw [hsegs]
      rfl
    rw [hA, hB, mem_dedupFirst]
    simp [mem_addPat]
    tauto
  · obtain ⟨a, b, c, hsegs⟩ := List.length_eq_three.mp h3
    have hmw := middle_eq_wildcardAt1 a b c
    have hA : generateResourcePatterns R =
        addPat (addPat (addPat (addPat (addPat [] R)
          (parentPattern [a, b, c] 2)) (parentPattern [a, b, c] 1))
          (middlePattern [a, b, c])) "*" := by
      unfold generateResourcePatterns
      rw [hsegs]
      rfl
    have hB : generateResourcePatternsB R = dedupFirst
        [R, parentPattern [a, b, c] 2, parentPattern [a, b, c] 1,
         wildcardAt [a, b, c] 1, "*"] := by
      unfold generateResourcePatternsB
      rw [hsegs]
      rfl
    rw [hA, hB, mem_dedupFirst]
    simp [mem_addPat, hmw]
    tauto

/-- Witness for the amended C6 at the three-segment resource `x/y/z` and
pattern `x/*`. -/
theorem genPatterns_equiv_upto3_witness :
    (splitSlash "x/y/z".toList).length ≤ 3
  ∧ ("x/*" ∈ generateResourcePatterns "x/y/z" ↔ "x/*" ∈ generateResourcePatternsB "x/y/z") :=
  ⟨by decide, genPatterns_equiv_upto3 "x/y/z" (by decide) "x/*"⟩

/-! ### C10: the first segment of every generated pattern -/

/-- First slash-delimited segment of a string. -/
def firstSegment (s : String) : List Char := (splitSlash s.toList).headD []

theorem splitSlash_no_slash (l : List Char) (h : ∀ c ∈ l, c ≠ '/') :
    splitSlash l = [l] := by
  induction l with
  | nil => rfl
  | cons c cs ih =>
    have hc : c ≠ '/' := h c (List.mem_cons_self c cs)
    have hrest : ∀ x ∈ cs, x ≠ '/' := fun x hx => h x (List.mem_cons_of_mem c hx)
    simp [splitSlash, hc, ih hrest]

theorem splitSlash_append_slash (s m : List Char) (h : ∀ c ∈ s, c ≠ '/') :
    splitSlash (s ++ '/' :: m) = s :: splitSlash m := by
  induction s with
  | nil => simp [splitSlash]
  | cons c cs ih =>
    have hc : c ≠ '/' := h c (List.mem_cons_self c cs)
    have hrest : ∀ x ∈ cs, x ≠ '/' := fun x hx => h x (List.mem_cons_of_mem c hx)
    simp [splitSlash, hc, ih hrest]

theorem splitSlash_seg_no_slash (l : List Char) :
    ∀ seg ∈ splitSlash l, ∀ c ∈ seg, c ≠ '/' := by
  induction l with
  | nil =>
    intro seg hseg
    simp only [splitSlash, List.mem_singleton] at hseg
    subst hseg
    simp
  | cons c cs ih =>
    intro seg hseg
    by_cases hc : c = '/'
    · subst hc
      have hsplit : splitSlash ('/' :: cs) = [] :: splitSlash cs := by simp [splitSlash]
      rw [hsplit] at hseg
      rcases List.mem_cons.mp hseg with rfl | hseg
      · simp
      · exact ih seg hseg
    · obtain ⟨s, ss, hss⟩ : ∃ s ss, splitSlash cs = s :: ss := by
        cases h' : splitSlash cs with
        | nil => exact absurd h' (splitSlash_ne_nil cs)
        | cons s ss => exact ⟨s, ss, rfl⟩
      have hsplit : splitSlash (c :: cs) = (c :: s) :: ss := by simp [splitSlash, hc, hss]
      rw [hsplit] at hseg
      rcases List.mem_cons.mp hseg with rfl | hseg
      · intro x hx
        rcases List.mem_cons.mp hx with rfl | hx
        · exact hc
        · exact ih s (hss ▸ List.mem_cons_self s ss) x hx
      · exact ih seg (hss ▸ List.mem_cons_of_mem s hseg)

theorem head_join_prefix (s0 : List Char) (X : List (List Char)) (t : List Char)
    (h0 : ∀ c ∈ s0, c ≠ '/')
    (ht : t = [] ∨ ∃ m, t = '/' :: m) :
    (splitSlash (joinSlash (s0 :: X) ++ t)).headD [] = s0 := by
  cases X with
  | nil =>
    show (splitSlash (s0 ++ t)).headD [] = s0
    rcases ht with rfl | ⟨m, rfl⟩
    · rw [List.append_nil, splitSlash_no_slash s0 h0]
      rfl
    · rw [splitSlash_append_slash s0 m h0]
      rfl
  | cons y ys =>
    show (splitSlash ((s0 ++ '/' :: joinSlash (y :: ys)) ++ t)).headD [] = s0
    rw [List.append_assoc, List.cons_append, splitSlash_append_slash s0 _ h0]
    rfl

theorem firstSegment_asString_join (s0 : List Char) (X : List (List Char)) (t : List Char)
    (h0 : ∀ c ∈ s0, c ≠ '/')
    (ht : t = [] ∨ ∃ m, t = '/' :: m) :
    firstSegment ((joinSlash (s0 :: X) ++ t).asString) = s0 :=
  head_join_prefix s0 X t h0 ht

theorem firstSegment_asString_join0 (s0 : List Char) (X : List (List Char))
    (h0 : ∀ c ∈ s0, c ≠ '/') :
    firstSegment ((joinSlash (s0 :: X)).asString) = s0 := by
  have h := firstSegment_asString_join s0 X [] h0 (Or.inl rfl)
  rwa [List.append_nil] at h

theorem parentPattern_cons (s0 : List Char) (rest : List (List Char)) (i : Nat) :
    parentPattern (s0 :: rest) (i + 1)
      = (joinSlash (s0 :: rest.take i) ++ ['/', '*']).asString := by
  rw [parentPattern, show ("/*" : String) = List.asString ['/', '*'] from rfl, asString_append]
  rfl

theorem middlePattern_cons (s0 : List Char) (rest : List (List Char)) :
    middlePattern (s0 :: rest)
      = (joinSlash [s0] ++ '/' :: '*' :: '/' :: ((s0 :: rest).getLastD [])).asString := by
  rw [middlePattern,
    show ("/*/" : String) = List.asString ['/', '*', '/'] from rfl,
    asString_append, asString_append]
  exact congrArg List.asString (List.append_assoc s0 ['/', '*', '/'] ((s0 :: rest).getLastD []))

theorem wildcardAt_cons (s0 : List Char) (rest : List (List Char)) (i : Nat) :
    wildcardAt (s0 :: rest) (i + 1) = (joinSlash (s0 :: setStar i rest)).asString := rfl

theorem twoWildA_cons (s0 : List Char) (rest : List (List Char)) (i : Nat) :
    twoWildA (s0 :: rest) (i + 1)
      = (joinSlash (s0 :: (rest.take i ++ [['*']] ++ (rest.drop (i + 1)).dropLast ++ [['*']]))).asString := by
  rw [twoWildA]
  congr 1

theorem twoWildB_cons (s0 : List Char) (rest : List (List Char)) (i j : Nat) :
    twoWildB (s0 :: rest) (i + 1) (j + 1)
      = (joinSlash (s0 :: setStar j (setStar i rest))).asString := rfl

theorem mem_idxList {i s n : Nat} : i ∈ idxList s n ↔ s ≤ i ∧ i < s + n := by
  induction n generalizing s with
  | zero => simp [idxList]
  | succ m ih =>
    simp only [idxList, List.mem_cons, ih]
    omega

theorem mem_foldl_addPat {β : Type} (f : β → String) (x : String) (l : List β) :
    ∀ init : List String,
      x ∈ l.foldl (fun acc i => addPat acc (f i)) init ↔ x ∈ init ∨ ∃ i ∈ l, x = f i := by
  induction l with
  | nil => intro init; simp
  | cons a l ih =>
    intro init
    rw [List.foldl_cons, ih, mem_addPat]
    simp only [List.mem_cons]
    aesop

theorem mem_genA_parents {P R : String}
    (h : P ∈ List.foldl (fun acc i => addPat acc (parentPattern (splitSlash R.toList) i))
        (addPat [] R) (idxList 1 ((splitSlash R.toList).length - 1)).reverse) :
    P = R ∨ (∃ i, 1 ≤ i ∧ P = parentPattern (splitSlash R.toList) i) := by
  rw [mem_foldl_addPat] at h
  rcases h with h | ⟨i, hi, rfl⟩
  · rw [mem_addPat] at h
    rcases h with h | rfl
    · simp at h
    · exact Or.inl rfl
  · rw [List.mem_reverse] at hi
    exact Or.inr ⟨i, (mem_idxList.mp hi).1, rfl⟩

theorem mem_genA_p2 {P R : String}
    (h : P ∈ (if 3 ≤ (splitSlash R.toList).length then
        (if 3 < (splitSlash R.toList).length then
          List.foldl (fun acc i => addPat acc (wildcardAt (splitSlash R.toList) i))
            (addPat (List.foldl (fun acc i => addPat acc (parentPattern (splitSlash R.toList) i))
              (addPat [] R) (idxList 1 ((splitSlash R.toList).length - 1)).reverse)
              (middlePattern (splitSlash R.toList)))
            (idxList 1 ((splitSlash R.toList).length - 2))
        else
          addPat (List.foldl (fun acc i => addPat acc (parentPattern (splitSlash R.toList) i))
            (addPat [] R) (idxList 1 ((splitSlash R.toList).length - 1)).reverse)
            (middlePattern (splitSlash R.toList)))
      else
        List.foldl (fun acc i => addPat acc (parentPattern (splitSlash R.toList) i))
          (addPat [] R) (idxList 1 ((splitSlash R.toList).length - 1)).reverse)) :
    P = R ∨ (∃ i, 1 ≤ i ∧ P = parentPattern (splitSlash R.toList) i)
      ∨ P = middlePattern (splitSlash R.toList)
      ∨ (∃ i, 1 ≤ i ∧ P = wildcardAt (splitSlash R.toList) i) := by
  by_cases h3 : 3 ≤ (splitSlash R.toList).length
  · rw [if_pos h3] at h
    by_cases h3p : 3 < (splitSlash R.toList).length
    · rw [if_pos h3p, mem_foldl_addPat] at h
      rcases h with h | ⟨i, hi, rfl⟩
      · rw [mem_addPat] at h
        rcases h with h | rfl
        · rcases mem_genA_parents h with h | h
          exacts [.inl h, .inr (.inl h)]
        · exact .inr (.inr (.inl rfl))
      · exact .inr (.inr (.inr ⟨i, (mem_idxList.mp hi).1, rfl⟩))
    · rw [if_neg h3p, mem_addPat] at h
      rcases h with h | rfl
      · rcases mem_genA_parents h with h | h
        exacts [.inl h, .inr (.inl h)]
      · exact .inr (.inr (.inl rfl))
  · rw [if_neg h3] at h
    rcases mem_genA_parents h with h | h
    exacts [.inl h, .inr (.inl h)]

/-- Membership in the `pathMapper.ts` generator output, decomposed into
the pattern families of the source. -/
theorem mem_generateResourcePatterns {P R : String}
    (h : P ∈ generateResourcePatterns R) :
    P = R ∨ P = "*"
  ∨ (∃ i, 1 ≤ i ∧ P = parentPattern (splitSlash R.toList) i)
  ∨ P = middlePattern (splitSlash R.toList)
  ∨ (∃ i, 1 ≤ i ∧ P = wildcardAt (splitSlash R.toList) i)
  ∨ (∃ i, 1 ≤ i ∧ P = twoWildA (splitSlash R.toList) i) := by
  simp only [generateResourcePatterns] at h
  rw [mem_addPat] at h
  rcases h with h | rfl
  · by_cases h4 : 4 ≤ (splitSlash R.toList).length
    · rw [if_pos h4, mem_foldl_addPat] at h
      rcases h with h | ⟨i, hi, rfl⟩
      · rcases mem_genA_p2 h with h | h | h | h
        exacts [.inl h, .inr (.inr (.inl h)), .inr (.inr (.inr (.inl h))),
          .inr (.inr (.inr (.inr (.inl h))))]
      · exact .inr (.inr (.inr (.inr (.inr ⟨i, (mem_idxList.mp hi).1, rfl⟩))))
    · rw [if_neg h4] at h
      rcases mem_genA_p2 h with h | h | h | h
      exacts [.inl h, .inr (.inr (.inl h)), .inr (.inr (.inr (.inl h))),
        .inr (.inr (.inr (.inr (.inl h))))]
  · exact .inr (.inl rfl)

theorem mem_genB_parents {P R : String}
    (h : P ∈ List.map (parentPattern (splitSlash R.toList))
        (idxList 1 ((splitSlash R.toList).length - 1)).reverse) :
    ∃ i, 1 ≤ i ∧ P = parentPattern (splitSlash R.toList) i := by
  obtain ⟨i, hi, rfl⟩ := List.mem_map.mp h
  rw [List.mem_reverse] at hi
  exact ⟨i, (mem_idxList.mp hi).1, rfl⟩

theorem mem_genB_singles {P R : String}
    (h : P ∈ List.map (wildcardAt (splitSlash R.toList))
        (idxList 1 ((splitSlash R.toList).length - 2))) :
    ∃ i, 1 ≤ i ∧ P = wildcardAt (splitSlash R.toList) i := by
  obtain ⟨i, hi, rfl⟩ := List.mem_map.mp h
  exact ⟨i, (mem_idxList.mp hi).1, rfl⟩

theorem mem_genB_two {P R : String}
    (h : P ∈ (List.map (fun i => List.map (fun j => twoWildB (splitSlash R.toList) i j)
        (idxList (i + 2) ((splitSlash R.toList).length - 2 - i)))
        (idxList 1 ((splitSlash R.toList).length - 3))).flatten) :
    ∃ i j, 1 ≤ i ∧ 1 ≤ j ∧ P = twoWildB (splitSlash R.toList) i j := by
  obtain ⟨ys, hys, hP⟩ := List.mem_flatten.mp h
  obtain ⟨i, hi, rfl⟩ := List.mem_map.mp hys
  obtain ⟨j, hj, rfl⟩ := List.mem_map.mp hP
  have hb1 := (mem_idxList.mp hi).1
  have hb2 := (mem_idxList.mp hj).1
  exact ⟨i, j, hb1, by omega, rfl⟩

theorem mem_genB_final {P R : String} {S T : List String}
    (hS : ∀ q ∈ S, ∃ i, 1 ≤ i ∧ q = wildcardAt (splitSlash R.toList) i)
    (hT : ∀ q ∈ T, ∃ i j, 1 ≤ i ∧ 1 ≤ j ∧ q = twoWildB (splitSlash R.toList) i j)
    (h : P ∈ [R] ++ List.map (parentPattern (splitSlash R.toList))
        (idxList 1 ((splitSlash R.toList).length - 1)).reverse ++ S ++ T ++ ["*"]) :
    P = R ∨ P = "*"
  ∨ (∃ i, 1 ≤ i ∧ P = parentPattern (splitSlash R.toList) i)
  ∨ (∃ i, 1 ≤ i ∧ P = wildcardAt (splitSlash R.toList) i)
  ∨ (∃ i j, 1 ≤ i ∧ 1 ≤ j ∧ P = twoWildB (splitSlash R.toList) i j) := by
  rw [List.mem_append, List.mem_append, List.mem_append, List.mem_append] at h
  rcases h with (((h | h) | h) | h) | h
  exacts [.inl (List.mem_singleton.mp h),
    .inr (.inr (.inl (mem_genB_parents h))),
    .inr (.inr (.inr (.inl (hS P h)))),
    .inr (.inr (.inr (.inr (hT P h)))),
    .inr (.inl (List.mem_singleton.mp h))]

/-- Membership in the `part_000` generator output, decomposed into the
pattern families of the source. -/
theorem mem_generateResourcePatternsB {P R : String}
    (h : P ∈ generateResourcePatternsB R) :
    P = R ∨ P = "*"
  ∨ (∃ i, 1 ≤ i ∧ P = parentPattern (splitSlash R.toList) i)
  ∨ (∃ i, 1 ≤ i ∧ P = wildcardAt (splitSlash R.toList) i)
  ∨ (∃ i j, 1 ≤ i ∧ 1 ≤ j ∧ P = twoWildB (splitSlash R.toList) i j) := by
  simp only [generateResourcePatternsB] at h
  rw [mem_dedupFirst] at h
  by_cases h3 : 3 ≤ (splitSlash R.toList).length
  · rw [if_pos h3] at h
    by_cases h4 : 4 ≤ (splitSlash R.toList).length
    · rw [if_pos h4] at h
      exact mem_genB_final (fun q hq => mem_genB_singles hq)
        (fun q hq => mem_genB_two hq) h
    · rw [if_neg h4] at h
      exact mem_genB_final (fun q hq => mem_genB_singles hq)
        (fun q hq => absurd hq (List.not_mem_nil q)) h
  · rw [if_neg h3] at h
    by_cases h4 : 4 ≤ (splitSlash R.toList).length
    · rw [if_pos h4] at h
      exact mem_genB_final (fun q hq => absurd hq (List.not_mem_nil q))
        (fun q hq => mem_genB_two hq) h
    · rw [if_neg h4] at h
      exact mem_genB_final (fun q hq => absurd hq (List.not_mem_nil q))
        (fun q hq => absurd hq (List.not_mem_nil q)) h


/-- Claim C10: for a resource whose first segment is not the wildcard,
every generated pattern (from either implementation) other than the
global `*` starts with the resource's own first segment, so no stored
pattern starting with a different head segment is ever queried. -/
theorem pattern_first_segment_invariant (R : String)
    (hfs : firstSegment R ≠ ['*']) (P : String)
    (hmem : P ∈ generateResourcePatterns R ∨ P ∈ generateResourcePatternsB R)
    (hP : P ≠ "*") :
    firstSegment P = firstSegment R := by
  obtain ⟨s0, rest, hsegs⟩ : ∃ s0 rest, splitSlash R.toList = s0 :: rest := by
    cases h' : splitSlash R.toList with
    | nil => exact absurd h' (splitSlash_ne_nil _)
    | cons s0 rest => exact ⟨s0, rest, rfl⟩
  have h0 : ∀ c ∈ s0, c ≠ '/' :=
    splitSlash_seg_no_slash R.toList s0 (hsegs ▸ List.mem_cons_self s0 rest)
  have hfR : firstSegment R = s0 := by
    rw [firstSegment, hsegs]
    rfl
  rw [hfR]
  have hfam :
      P = R ∨ P = "*"
    ∨ (∃ i, 1 ≤ i ∧ P = parentPattern (splitSlash R.toList) i)
    ∨ P = middlePattern (splitSlash R.toList)
    ∨ (∃ i, 1 ≤ i ∧ P = wildcardAt (splitSlash R.toList) i)
    ∨ (∃ i, 1 ≤ i ∧ P = twoWildA (splitSlash R.toList) i)
    ∨ (∃ i j, 1 ≤ i ∧ 1 ≤ j ∧ P = twoWildB (splitSlash R.toList) i j) := by
    rcases hmem with h | h
    · rcases mem_generateResourcePatterns h with h | h | h | h | h | h
      exacts [.inl h, .inr (.inl h), .inr (.inr (.inl h)),
        .inr (.inr (.inr (.inl h))),
        .inr (.inr (.inr (.inr (.inl h)))),
        .inr (.inr (.inr (.inr (.inr (.inl h)))))]
    · rcases mem_generateResourcePatternsB h with h | h | h | h | h
      exacts [.inl h, .inr (.inl h), .inr (.inr (.inl h)),
        .inr (.inr (.inr (.inr (.inl h)))),
        .inr (.inr (.inr (.inr (.inr (.inr h)))))]
  rcases hfam with rfl | rfl | ⟨i, hi, rfl⟩ | rfl | ⟨i, hi, rfl⟩ | ⟨i, hi, rfl⟩ |
      ⟨i, j, hi, hj, rfl⟩
  · exact hfR
  · exact absurd rfl hP
  · obtain ⟨i', rfl⟩ : ∃ i', i = i' + 1 := ⟨i - 1, by omega⟩
    rw [hsegs, parentPattern_cons]
    exact firstSegment_asString_join s0 _ _ h0 (Or.inr ⟨['*'], rfl⟩)
  · rw [hsegs, middlePattern_cons]
    exact firstSegment_asString_join s0 _ _ h0 (Or.inr ⟨_, rfl⟩)
  · obtain ⟨i', rfl⟩ : ∃ i', i = i' + 1 := ⟨i - 1, by omega⟩
    rw [hsegs, wildcardAt_cons]
    exact firstSegment_asString_join0 s0 _ h0
  · obtain ⟨i', rfl⟩ : ∃ i', i = i' + 1 := ⟨i - 1, by omega⟩
    rw [hsegs, twoWildA_cons]
    exact firstSegment_asString_join0 s0 _ h0
  · obtain ⟨i', rfl⟩ : ∃ i', i = i' + 1 := ⟨i - 1, by omega⟩
    obtain ⟨j', rfl⟩ : ∃ j', j = j' + 1 := ⟨j - 1, by omega⟩
    rw [hsegs, twoWildB_cons]
    exact firstSegment_asString_join0 s0 _ h0

/-- Witness for C10 at the concrete resource `wallets/w1/tx` and the
generated pattern `wallets/*`. -/
theorem pattern_first_segment_invariant_witness :
    firstSegment "wallets/w1/tx" ≠ ['*']
  ∧ ("wallets/*" ∈ generateResourcePatterns "wallets/w1/tx" ∨
     "wallets/*" ∈ generateResourcePatternsB "wallets/w1/tx")
  ∧ "wallets/*" ≠ "*"
  ∧ firstSegment "wallets/*" = firstSegment "wallets/w1/tx" :=
  ⟨by decide, Or.inl (by decide), by decide,
   pattern_first_segment_invariant "wallets/w1/tx" (by decide) "wallets/*"
     (Or.inl (by decide)) (by decide)⟩

end OAuthAuthz
